import Mathlib

/-!
# ChroMaya palette-history core: shallow embedding and verification

This file embeds the palette-history core of the ChroMaya repository
(`src/palette/PaletteHistory.ts`, the undo/redo session of `src/main.ts`,
and the blob influence function of `src/geometry/Blob`/`Circle.ts`) into
Lean and proves the specification claims about it.

Conventions of the embedding:
* JavaScript numbers are modelled as exact rationals (`ℚ`); the numeric
  literals of the source (`1.2`, `0.05`, `3.0`, `1000`) are exact in `ℚ`.
* `gl-matrix` `vec3` values are a `Vec3` record of three rationals.
  `vec3.distance a b < ε` (with `ε > 0`) is embedded as
  `dist2 a b < ε ^ 2`, where `dist2` is the squared Euclidean distance:
  for nonnegative reals the two comparisons are equivalent, and the
  squared form stays inside `ℚ`.
* Calls such as `blob.create()` only rebuild WebGL vertex buffers and do
  not touch `center` / `color` / `radius`; they are omitted.
* In-place mutation of JavaScript objects is modelled functionally; where
  a claim is genuinely about object identity / aliasing (deep-copy
  isolation), an explicit store of blob references is used.
-/

/-- A 3-component vector of exact rationals, standing for a `gl-matrix`
`vec3` (used for blob centers, with the `w`/`z` padding dropped, and for
RGB colors). -/
structure Vec3 where
  x : ℚ
  y : ℚ
  z : ℚ
  deriving DecidableEq, Repr

/-- Componentwise addition, as `vec3.add`. -/
def Vec3.add (a b : Vec3) : Vec3 := ⟨a.x + b.x, a.y + b.y, a.z + b.z⟩

/-- Scaling, as `vec3.scale`. -/
def Vec3.scale (s : ℚ) (a : Vec3) : Vec3 := ⟨s * a.x, s * a.y, s * a.z⟩

/-- Squared Euclidean distance.  The source computes
`vec3.distance a b = sqrt (dist2 a b)` and only compares it against
positive thresholds, so every such comparison is embedded on squares. -/
def dist2 (a b : Vec3) : ℚ :=
  (a.x - b.x) ^ 2 + (a.y - b.y) ^ 2 + (a.z - b.z) ^ 2

/-- The value part of a `Blob` (`src/geometry/Blob`): `center`, `color`
and `radius`.  The WebGL buffer fields and the render-only `id` counter
play no role in any claim and are omitted. -/
structure Blob where
  center : Vec3
  color : Vec3
  radius : ℚ
  deriving DecidableEq, Repr

/-! ## Blob influence (`Blob.getInfluence`, `src/geometry/Circle.ts` lines 68-82)

The source computes `dist = sqrt(dx*dx + dy*dy)` from the query point and
the center; the square root of a rational is not in general rational, so
the embedding takes the (nonnegative) Euclidean distance itself as the
argument.  Everything past the distance computation is verbatim:
`influenceRadius = radius * 3.0`; inside the radius the weight is
`(1 - t^3 (t (6 t - 15) + 10)) * 1.2` with `t = dist / influenceRadius`,
and `0` outside. -/

/-- `Blob.getInfluence`, as a function of the blob radius and of the
already-computed Euclidean distance from the query point to the center. -/
def getInfluence (radius dist : ℚ) : ℚ :=
  let influenceRadius := radius * 3
  if dist ≤ influenceRadius then
    let t := dist / influenceRadius
    (1 - t * t * t * (t * (t * 6 - 15) + 10)) * 1.2
  else
    0

/-! ## Average color (`MixingDish.getAverageColor`, `PaletteHistory.ts` lines 61-70) -/

/-- `MixingDish.getAverageColor`: white for an empty dish, otherwise the
running `vec3.add` of all blob colors scaled by `1 / count`. -/
def getAverageColor (blobs : List Blob) : Vec3 :=
  if blobs.length = 0 then ⟨1, 1, 1⟩
  else
    let avg := blobs.foldl (fun acc b => acc.add b.color) ⟨0, 0, 0⟩
    Vec3.scale (1 / (blobs.length : ℚ)) avg

theorem foldl_add_color (blobs : List Blob) (z : Vec3) :
    blobs.foldl (fun acc b => acc.add b.color) z =
      ⟨z.x + (blobs.map (fun b => b.color.x)).sum,
       z.y + (blobs.map (fun b => b.color.y)).sum,
       z.z + (blobs.map (fun b => b.color.z)).sum⟩ := by
  induction blobs generalizing z with
  | nil => simp
  | cons b rest ih =>
    simp only [List.foldl_cons, List.map_cons, List.sum_cons, ih]
    simp [Vec3.add]
    refine ⟨by ring, by ring, by ring⟩

/-- C8: `getAverageColor` is the componentwise arithmetic mean of the blob
colors of a dish; an empty dish yields white `(1,1,1)` as a defined
fallback; and the dish with blobs colored `(1,0,0)`, `(0,1,0)`, `(0,0,1)`
averages to `(1/3, 1/3, 1/3)`. -/
theorem getAverageColor_mean :
    (∀ blobs : List Blob, blobs ≠ [] →
      getAverageColor blobs =
        ⟨(blobs.map (fun b => b.color.x)).sum / blobs.length,
         (blobs.map (fun b => b.color.y)).sum / blobs.length,
         (blobs.map (fun b => b.color.z)).sum / blobs.length⟩) ∧
    getAverageColor [] = ⟨1, 1, 1⟩ ∧
    getAverageColor
        [⟨⟨0, 0, 0⟩, ⟨1, 0, 0⟩, 1/10⟩,
         ⟨⟨1, 0, 0⟩, ⟨0, 1, 0⟩, 1/10⟩,
         ⟨⟨0, 1, 0⟩, ⟨0, 0, 1⟩, 1/10⟩] = ⟨1/3, 1/3, 1/3⟩ := by
  refine ⟨?_, by norm_num [getAverageColor], ?_⟩
  case refine_2 =>
    norm_num [getAverageColor, Vec3.add, Vec3.scale]
  intro blobs hne
  have hlen : blobs.length ≠ 0 := by simpa using hne
  simp only [getAverageColor, hlen, if_false, foldl_add_color]
  simp [Vec3.scale]
  refine ⟨by ring, by ring, by ring⟩

/-- Witness for `getAverageColor_mean`: the mean formula evaluated on the
concrete red/green/blue dish. -/
theorem getAverageColor_mean_witness :
    ([⟨⟨0, 0, 0⟩, ⟨1, 0, 0⟩, 1/10⟩] : List Blob) ≠ [] ∧
    getAverageColor [⟨⟨0, 0, 0⟩, ⟨1, 0, 0⟩, 1/10⟩] =
      ⟨([(⟨⟨0, 0, 0⟩, ⟨1, 0, 0⟩, 1/10⟩ : Blob)].map (fun b => b.color.x)).sum / 1,
       ([(⟨⟨0, 0, 0⟩, ⟨1, 0, 0⟩, 1/10⟩ : Blob)].map (fun b => b.color.y)).sum / 1,
       ([(⟨⟨0, 0, 0⟩, ⟨1, 0, 0⟩, 1/10⟩ : Blob)].map (fun b => b.color.z)).sum / 1⟩ := by
  refine ⟨by simp, ?_⟩
  have h := getAverageColor_mean.1 [⟨⟨0, 0, 0⟩, ⟨1, 0, 0⟩, 1/10⟩] (by simp)
  simpa using h

/-- Monotonicity of the smootherstep core `t^3 (t (6t - 15) + 10)` on
`[0, 1]`. -/
theorem smootherstep_mono {a b : ℚ} (ha : 0 ≤ a) (hab : a ≤ b) (hb : b ≤ 1) :
    a * a * a * (a * (a * 6 - 15) + 10) ≤ b * b * b * (b * (b * 6 - 15) + 10) := by
  nlinarith [sq_nonneg (a - b), sq_nonneg (a + b), sq_nonneg (a + b - 1),
    mul_nonneg ha (sub_nonneg.2 hab), mul_nonneg (sub_nonneg.2 hab) (sub_nonneg.2 hb),
    mul_nonneg (mul_nonneg ha ha) (sub_nonneg.2 hab),
    mul_nonneg ha (sub_nonneg.2 hb),
    sq_nonneg (a * (1 - a) - b * (1 - b)),
    mul_nonneg (mul_nonneg ha (sub_nonneg.2 hab)) (sub_nonneg.2 hb)]

/-- C9: for a blob of positive radius, the influence weight is exactly
`1.2` at distance `0`, exactly `0` at distance `influenceRadius =
radius * 3`, `0` at every larger distance, and monotonically
non-increasing in the distance on `[0, influenceRadius]`. -/
theorem getInfluence_falloff (r : ℚ) (hr : 0 < r) :
    getInfluence r 0 = 1.2 ∧
    getInfluence r (r * 3) = 0 ∧
    (∀ d : ℚ, r * 3 < d → getInfluence r d = 0) ∧
    (∀ d₁ d₂ : ℚ, 0 ≤ d₁ → d₁ ≤ d₂ → d₂ ≤ r * 3 →
      getInfluence r d₂ ≤ getInfluence r d₁) := by
  have hr3 : (0:ℚ) < r * 3 := by linarith
  refine ⟨?_, ?_, ?_, ?_⟩
  · rw [getInfluence, if_pos (le_of_lt hr3)]
    norm_num
  · have hne : r * 3 ≠ 0 := ne_of_gt hr3
    rw [getInfluence, if_pos le_rfl]
    rw [div_self hne]
    norm_num
  · intro d hd
    rw [getInfluence, if_neg (not_le.2 hd)]
  · intro d₁ d₂ h0 h12 h2r
    have h1r : d₁ ≤ r * 3 := le_trans h12 h2r
    rw [getInfluence, getInfluence, if_pos h1r, if_pos h2r]
    have ht1 : (0:ℚ) ≤ d₁ / (r * 3) := div_nonneg h0 (le_of_lt hr3)
    have ht12 : d₁ / (r * 3) ≤ d₂ / (r * 3) := by gcongr
    have ht2 : d₂ / (r * 3) ≤ 1 := by
      rw [div_le_one hr3]; exact h2r
    have hmono := smootherstep_mono ht1 ht12 ht2
    nlinarith [hmono]

/-- Witness for `getInfluence_falloff`: the falloff facts at radius `1`,
including monotonicity between distances `1` and `2`. -/
theorem getInfluence_falloff_witness :
    (0:ℚ) < 1 ∧
    getInfluence 1 0 = 1.2 ∧
    getInfluence 1 (1 * 3) = 0 ∧
    getInfluence 1 4 = 0 ∧
    getInfluence 1 2 ≤ getInfluence 1 1 := by
  have h := getInfluence_falloff 1 (by norm_num)
  exact ⟨by norm_num, h.1, h.2.1, h.2.2.1 4 (by norm_num),
    h.2.2.2 1 2 (by norm_num) (by norm_num) (by norm_num)⟩

/-! ## Color propagation (`PaletteHistory.propagateColorChanges`, lines 144-186)

`propagateColorChanges(dish, originalBlobs)` walks the `children`
references of `dish`, which form a tree of `MixingDish` objects; the tree
is embedded as the nested inductive `DishT`.  For every blob of a child
the inner `j`-loop scans `originalBlobs` and, at the first `j` with both
`vec3.distance(child.center, originalBlobs[j].center) < 0.05` and
`vec3.distance(child.color, originalBlobs[j].color) < 0.05`, copies
`dish.blobs[j].color` into the child blob and breaks.  If `j` is out of
range of `dish.blobs`, the source reads `undefined.color` and throws a
`TypeError`; the embedding returns `none` for that case.  When at least
one blob of a child matched, the source recurses with the child as the
new `dish` — so the recursive level takes its updated colors from the
child's own (just rewritten) `blobs`, while `originalBlobs` is passed
through unchanged. -/

/-- The matching predicate of the inner loop: both the center distance
and the color distance of the child blob to `before` are `< 0.05`
(squared-distance form of the source's `vec3.distance` comparisons). -/
def Matches (child before : Blob) : Prop :=
  dist2 child.center before.center < (0.05 : ℚ) ^ 2 ∧
  dist2 child.color before.color < (0.05 : ℚ) ^ 2

instance (child before : Blob) : Decidable (Matches child before) := by
  unfold Matches; infer_instance

/-- Index of the first element of `originalBlobs` matching the child
blob, mirroring the `j`-loop with its `break`. -/
def matchIndex (originalBlobs : List Blob) (child : Blob) : Option ℕ :=
  match originalBlobs with
  | [] => none
  | ob :: rest =>
    if Matches child ob then some 0
    else (matchIndex rest child).map (· + 1)

/-- One iteration of the child-blob loop body: on a match at index `j`,
overwrite the color with `dishBlobs[j].color` (position and radius kept)
and report the change; on no match, keep the blob.  `none` models the
`TypeError` thrown when `dishBlobs[j]` is `undefined`. -/
def recolorOne (originalBlobs dishBlobs : List Blob) (b : Blob) :
    Option (Blob × Bool) :=
  match matchIndex originalBlobs b with
  | none => some (b, false)
  | some j =>
    match dishBlobs[j]? with
    | none => none
    | some ub => some ({ b with color := ub.color }, true)

/-- The child-blob loop over a whole blob list; the returned flag is the
`childChanged` accumulator. -/
def recolorBlobs (originalBlobs dishBlobs : List Blob) :
    List Blob → Option (List Blob × Bool)
  | [] => some ([], false)
  | b :: rest =>
    match recolorOne originalBlobs dishBlobs b with
    | none => none
    | some (b', c) =>
      match recolorBlobs originalBlobs dishBlobs rest with
      | none => none
      | some (rest', cs) => some (b' :: rest', c || cs)

/-- A `MixingDish` node as seen by `propagateColorChanges`: its ordered
blob list and its `children` subtrees. -/
inductive DishT : Type where
  | node (blobs : List Blob) (children : List DishT)

/-- The blob list of a dish node. -/
def DishT.blobs : DishT → List Blob
  | .node bs _ => bs

/-- The children subtrees of a dish node. -/
def DishT.children : DishT → List DishT
  | .node _ cs => cs

/-- The `for (const childDish of dish.children)` loop of
`propagateColorChanges`, parametrized by `originalBlobs` and by the blob
list of the current `dish`.  A changed child is recursed into with the
child's updated blobs as the new `dishBlobs`. -/
def propagateChildren (originalBlobs dishBlobs : List Blob) :
    List DishT → Option (List DishT)
  | [] => some []
  | DishT.node cb cc :: rest =>
    match recolorBlobs originalBlobs dishBlobs cb with
    | none => none
    | some (nb, changed) =>
      match (if changed then propagateChildren originalBlobs nb cc else some cc) with
      | none => none
      | some cc' =>
        match propagateChildren originalBlobs dishBlobs rest with
        | none => none
        | some rest' => some (DishT.node nb cc' :: rest')

/-- `PaletteHistory.propagateColorChanges(dish, originalBlobs)`: the
dish's own blobs are untouched, its children subtrees are rewritten. -/
def propagateColorChanges (originalBlobs : List Blob) : DishT → Option DishT
  | DishT.node bs cs => (propagateChildren originalBlobs bs cs).map (DishT.node bs)


theorem matchIndex_none_iff (obs : List Blob) (b : Blob) :
    matchIndex obs b = none ↔ ∀ ob ∈ obs, ¬ Matches b ob := by
  induction obs with
  | nil => simp [matchIndex]
  | cons o rest ih =>
    by_cases h : Matches b o
    · simp [matchIndex, h]
    · simp [matchIndex, h, ih]

theorem matchIndex_first (obs : List Blob) (b : Blob) (j : ℕ) (ob : Blob)
    (hj : obs[j]? = some ob) (hm : Matches b ob)
    (hmin : ∀ j' ob', j' < j → obs[j']? = some ob' → ¬ Matches b ob') :
    matchIndex obs b = some j := by
  induction obs generalizing j with
  | nil => simp at hj
  | cons o rest ih =>
    cases j with
    | zero =>
      simp at hj
      subst hj
      simp [matchIndex, hm]
    | succ j' =>
      have hno : ¬ Matches b o := hmin 0 o (Nat.succ_pos _) (by simp)
      have hrec := ih j' (by simpa using hj)
        (fun j'' ob'' hlt hget => hmin (j'' + 1) ob'' (Nat.succ_lt_succ hlt) (by simpa using hget))
      simp [matchIndex, hno, hrec]

theorem matchIndex_some_spec (obs : List Blob) (b : Blob) (j : ℕ)
    (h : matchIndex obs b = some j) :
    ∃ ob, obs[j]? = some ob ∧ Matches b ob ∧
      ∀ j' ob', j' < j → obs[j']? = some ob' → ¬ Matches b ob' := by
  induction obs generalizing j with
  | nil => simp [matchIndex] at h
  | cons o rest ih =>
    by_cases hm : Matches b o
    · simp [matchIndex, hm] at h
      subst h
      exact ⟨o, by simp, hm, fun j' ob' hlt _ => absurd hlt (Nat.not_lt_zero _)⟩
    · simp [matchIndex, hm] at h
      obtain ⟨j₀, hj₀, rfl⟩ := h
      obtain ⟨ob, hget, hmatch, hfirst⟩ := ih j₀ hj₀
      refine ⟨ob, by simpa using hget, hmatch, ?_⟩
      intro j' ob' hlt hget'
      cases j' with
      | zero =>
        simp at hget'
        subst hget'
        exact hm
      | succ j'' =>
        exact hfirst j'' ob' (Nat.lt_of_succ_lt_succ hlt) (by simpa using hget')

theorem recolorBlobs_cons (ob dbs : List Blob) (b : Blob) (rest : List Blob) :
    recolorBlobs ob dbs (b :: rest) =
      (recolorOne ob dbs b).bind (fun p =>
        (recolorBlobs ob dbs rest).map (fun q => (p.1 :: q.1, p.2 || q.2))) := by
  rw [recolorBlobs]
  cases recolorOne ob dbs b with
  | none => rfl
  | some p =>
    dsimp only [Option.bind]
    cases recolorBlobs ob dbs rest <;> rfl

theorem recolorBlobs_spec (ob dbs bs bs' : List Blob) (ch : Bool)
    (h : recolorBlobs ob dbs bs = some (bs', ch)) :
    bs'.length = bs.length ∧
    ∀ (k : ℕ) (b : Blob), bs[k]? = some b →
      ∃ b' c, recolorOne ob dbs b = some (b', c) ∧ bs'[k]? = some b' := by
  induction bs generalizing bs' ch with
  | nil =>
    simp [recolorBlobs] at h
    simp [h.1]
  | cons b rest ih =>
    rw [recolorBlobs_cons] at h
    simp only [Option.bind_eq_some, Option.map_eq_some'] at h
    obtain ⟨⟨b₀, c₀⟩, h1, ⟨rest', cs₀⟩, h2, hpair⟩ := h
    have hbs' : bs' = b₀ :: rest' := by
      have := congrArg Prod.fst hpair
      simpa using this.symm
    subst hbs'
    obtain ⟨hlen, hget⟩ := ih rest' cs₀ h2
    refine ⟨by simp [hlen], ?_⟩
    intro k bk hk
    cases k with
    | zero =>
      simp at hk
      subst hk
      exact ⟨b₀, c₀, h1, by simp⟩
    | succ k' =>
      simp at hk
      obtain ⟨b', c', hro, hg⟩ := hget k' bk hk
      exact ⟨b', c', hro, by simpa using hg⟩

theorem propagateChildren_cons (ob dbs cb : List Blob) (cc rest : List DishT) :
    propagateChildren ob dbs (DishT.node cb cc :: rest) =
      (recolorBlobs ob dbs cb).bind (fun p =>
        (if p.2 then propagateChildren ob p.1 cc else some cc).bind (fun cc' =>
          (propagateChildren ob dbs rest).map (fun rest' => DishT.node p.1 cc' :: rest'))) := by
  rw [propagateChildren]
  cases recolorBlobs ob dbs cb with
  | none => rfl
  | some p =>
    obtain ⟨nb, changed⟩ := p
    dsimp only [Option.bind]
    cases hif : (if changed then propagateChildren ob nb cc else some cc) with
    | none => rfl
    | some cc' =>
      dsimp only
      cases propagateChildren ob dbs rest <;> rfl

theorem propagateChildren_spec (ob dbs : List Blob) (cs cs' : List DishT)
    (h : propagateChildren ob dbs cs = some cs') :
    cs'.length = cs.length ∧
    ∀ (i : ℕ) (c : DishT), cs[i]? = some c → ∃ nb ch cc',
      recolorBlobs ob dbs c.blobs = some (nb, ch) ∧
      cs'[i]? = some (DishT.node nb cc') := by
  induction cs generalizing cs' with
  | nil =>
    simp [propagateChildren] at h
    subst h
    simp
  | cons c rest ih =>
    cases c with
    | node cb cc =>
      rw [propagateChildren_cons] at h
      simp only [Option.bind_eq_some, Option.map_eq_some'] at h
      obtain ⟨⟨nb, changed⟩, h1, cc', h2, rest', h3, hcs⟩ := h
      subst hcs
      obtain ⟨hlen, hget⟩ := ih rest' h3
      refine ⟨by simp [hlen], ?_⟩
      intro i ci hi
      cases i with
      | zero =>
        simp at hi
        subst hi
        exact ⟨nb, changed, cc', h1, by simp⟩
      | succ i' =>
        simp at hi
        obtain ⟨nb', ch', cc'', hr, hg⟩ := hget i' ci hi
        exact ⟨nb', ch', cc'', hr, by simpa using hg⟩

theorem recolorOne_of_no_match (ob dbs : List Blob) (b : Blob)
    (hmi : matchIndex ob b = none) :
    recolorOne ob dbs b = some (b, false) := by
  rw [recolorOne, hmi]

theorem recolorOne_of_match (ob dbs : List Blob) (b ub : Blob) (j : ℕ)
    (hmi : matchIndex ob b = some j) (hub : dbs[j]? = some ub) :
    recolorOne ob dbs b = some ({ b with color := ub.color }, true) := by
  rw [recolorOne, hmi]
  dsimp only
  rw [hub]

theorem recolorOne_match_success (ob dbs : List Blob) (b b' : Blob) (c : Bool) (j : ℕ)
    (hmi : matchIndex ob b = some j)
    (hro : recolorOne ob dbs b = some (b', c)) :
    ∃ ub, dbs[j]? = some ub ∧ b' = { b with color := ub.color } ∧ c = true := by
  rw [recolorOne, hmi] at hro
  dsimp only at hro
  cases hub : dbs[j]? with
  | none =>
    rw [hub] at hro
    exact absurd hro (by simp)
  | some ub =>
    rw [hub] at hro
    simp only [Option.some_inj, Prod.mk.injEq] at hro
    exact ⟨ub, rfl, hro.1.symm, hro.2.symm⟩

/-- C1: after `applyRecoloring` on a dish whose `before` snapshot has the
same length and order as its blob list `after`, every blob `k` of every
immediate child dish that is within the `0.05` position and `0.05` color
thresholds (Euclidean, squared form) of some `before[j]` gets exactly the
color of `after[j]` for the smallest such `j` — first match in index
order — keeping its position and radius; a blob matching no `before[j]`
is unchanged. -/
theorem propagate_recolors_immediate_children
    (before after : List Blob) (cs : List DishT) (result : DishT)
    (hlen : before.length = after.length)
    (hrun : propagateColorChanges before (DishT.node after cs) = some result) :
    ∃ cs' : List DishT, result = DishT.node after cs' ∧ cs'.length = cs.length ∧
      ∀ (i : ℕ) (c c' : DishT), cs[i]? = some c → cs'[i]? = some c' →
        c'.blobs.length = c.blobs.length ∧
        ∀ (k : ℕ) (b b' : Blob), c.blobs[k]? = some b → c'.blobs[k]? = some b' →
          ((∀ ob ∈ before, ¬ Matches b ob) → b' = b) ∧
          (∀ (j : ℕ) (ob : Blob), before[j]? = some ob → Matches b ob →
            (∀ (j' : ℕ) (ob' : Blob), j' < j → before[j']? = some ob' →
              ¬ Matches b ob') →
            ∃ ab, after[j]? = some ab ∧
              b'.color = ab.color ∧ b'.center = b.center ∧ b'.radius = b.radius) := by
  rw [propagateColorChanges] at hrun
  simp only [Option.map_eq_some'] at hrun
  obtain ⟨cs', hcs', hres⟩ := hrun
  obtain ⟨hclen, hcget⟩ := propagateChildren_spec before after cs cs' hcs'
  refine ⟨cs', hres.symm, hclen, ?_⟩
  intro i c c' hc hc'
  obtain ⟨nb, ch, cc', hrec, hget'⟩ := hcget i c hc
  have hc'eq : c' = DishT.node nb cc' := by
    rw [hget'] at hc'
    exact (Option.some_inj.1 hc').symm
  subst hc'eq
  obtain ⟨hblen, hbget⟩ := recolorBlobs_spec before after c.blobs nb ch hrec
  refine ⟨by simpa [DishT.blobs] using hblen, ?_⟩
  intro k b b' hb hb'
  obtain ⟨b₀, c₀, hro, hg⟩ := hbget k b hb
  have hb'eq : b' = b₀ := by
    simp only [DishT.blobs] at hb'
    rw [hg] at hb'
    exact (Option.some_inj.1 hb').symm
  subst hb'eq
  constructor
  · intro hnone
    have hmi : matchIndex before b = none := (matchIndex_none_iff before b).2 hnone
    have := recolorOne_of_no_match before after b hmi
    rw [this] at hro
    have heq := Option.some_inj.1 hro
    exact (congrArg Prod.fst heq).symm
  · intro j ob hj hm hmin
    have hmi : matchIndex before b = some j := matchIndex_first before b j ob hj hm hmin
    obtain ⟨ub, hub, hbeq, _⟩ := recolorOne_match_success before after b b' c₀ j hmi hro
    exact ⟨ub, hub, by rw [hbeq], by rw [hbeq], by rw [hbeq]⟩

/-- Witness for `propagate_recolors_immediate_children`: one edited dish
whose single blob changed color from black to red, and one child holding
a copy of the pre-edit blob; the child's blob is recolored to red. -/
theorem propagate_recolors_immediate_children_witness :
    ([(⟨⟨0, 0, 0⟩, ⟨0, 0, 0⟩, 1/10⟩ : Blob)]).length =
      ([(⟨⟨0, 0, 0⟩, ⟨1, 0, 0⟩, 1/10⟩ : Blob)]).length ∧
    propagateColorChanges [⟨⟨0, 0, 0⟩, ⟨0, 0, 0⟩, 1/10⟩]
        (DishT.node [⟨⟨0, 0, 0⟩, ⟨1, 0, 0⟩, 1/10⟩]
          [DishT.node [⟨⟨0, 0, 0⟩, ⟨0, 0, 0⟩, 1/10⟩] []]) =
      some (DishT.node [⟨⟨0, 0, 0⟩, ⟨1, 0, 0⟩, 1/10⟩]
          [DishT.node [⟨⟨0, 0, 0⟩, ⟨1, 0, 0⟩, 1/10⟩] []]) ∧
    (∃ cs' : List DishT,
      (DishT.node [(⟨⟨0, 0, 0⟩, ⟨1, 0, 0⟩, 1/10⟩ : Blob)]
          [DishT.node [⟨⟨0, 0, 0⟩, ⟨1, 0, 0⟩, 1/10⟩] []]) =
        DishT.node [⟨⟨0, 0, 0⟩, ⟨1, 0, 0⟩, 1/10⟩] cs' ∧
      cs'.length = ([DishT.node [(⟨⟨0, 0, 0⟩, ⟨0, 0, 0⟩, 1/10⟩ : Blob)] []]).length ∧
      ∀ (i : ℕ) (c c' : DishT),
        ([DishT.node [(⟨⟨0, 0, 0⟩, ⟨0, 0, 0⟩, 1/10⟩ : Blob)] []])[i]? = some c →
        cs'[i]? = some c' →
        c'.blobs.length = c.blobs.length ∧
        ∀ (k : ℕ) (b b' : Blob), c.blobs[k]? = some b → c'.blobs[k]? = some b' →
          ((∀ ob ∈ [(⟨⟨0, 0, 0⟩, ⟨0, 0, 0⟩, 1/10⟩ : Blob)], ¬ Matches b ob) → b' = b) ∧
          (∀ (j : ℕ) (ob : Blob),
            ([(⟨⟨0, 0, 0⟩, ⟨0, 0, 0⟩, 1/10⟩ : Blob)])[j]? = some ob → Matches b ob →
            (∀ (j' : ℕ) (ob' : Blob), j' < j →
              ([(⟨⟨0, 0, 0⟩, ⟨0, 0, 0⟩, 1/10⟩ : Blob)])[j']? = some ob' →
              ¬ Matches b ob') →
            ∃ ab, ([(⟨⟨0, 0, 0⟩, ⟨1, 0, 0⟩, 1/10⟩ : Blob)])[j]? = some ab ∧
              b'.color = ab.color ∧ b'.center = b.center ∧ b'.radius = b.radius)) := by
  have heval : propagateColorChanges [(⟨⟨0, 0, 0⟩, ⟨0, 0, 0⟩, 1/10⟩ : Blob)]
      (DishT.node [⟨⟨0, 0, 0⟩, ⟨1, 0, 0⟩, 1/10⟩]
        [DishT.node [⟨⟨0, 0, 0⟩, ⟨0, 0, 0⟩, 1/10⟩] []]) =
      some (DishT.node [⟨⟨0, 0, 0⟩, ⟨1, 0, 0⟩, 1/10⟩]
        [DishT.node [⟨⟨0, 0, 0⟩, ⟨1, 0, 0⟩, 1/10⟩] []]) := by
    norm_num [propagateColorChanges, propagateChildren, recolorBlobs, recolorOne,
      matchIndex, Matches, dist2]
  exact ⟨rfl, heval,
    propagate_recolors_immediate_children _ _ _ _ rfl heval⟩

/-- A child whose blobs all fail the matching rule is recolored to itself
with `childChanged = false`. -/
theorem recolorBlobs_no_match (ob dbs cb : List Blob)
    (h : ∀ b ∈ cb, ∀ o ∈ ob, ¬ Matches b o) :
    recolorBlobs ob dbs cb = some (cb, false) := by
  induction cb with
  | nil => rfl
  | cons b rest ih =>
    rw [recolorBlobs_cons,
      recolorOne_of_no_match ob dbs b
        ((matchIndex_none_iff ob b).2 (h b (List.mem_cons_self b rest))),
      ih (fun b' hb' => h b' (List.mem_cons_of_mem b hb'))]
    rfl

/-- C4 counterexample: the recursion does NOT reuse the original edited
dish's after-colors.  The edited dish's blobs `A` (at the origin) and `B`
(at `x = 1`), both black, become red and green respectively.  A child
holds a copy of `B`; its grandchild holds a copy of `A`.  The child's
blob is recolored to green (`after[1]`); but the grandchild's blob, whose
unique match among the `before` blobs is `A` at index `0`, is also
recolored to green — the color of the just-updated child blob at index
`0` — instead of the original dish's `after[0] = red`. -/
theorem propagate_depth_counterexample :
    propagateColorChanges
        [⟨⟨0, 0, 0⟩, ⟨0, 0, 0⟩, 1/10⟩, ⟨⟨1, 0, 0⟩, ⟨0, 0, 0⟩, 1/10⟩]
        (DishT.node [⟨⟨0, 0, 0⟩, ⟨1, 0, 0⟩, 1/10⟩, ⟨⟨1, 0, 0⟩, ⟨0, 1, 0⟩, 1/10⟩]
          [DishT.node [⟨⟨1, 0, 0⟩, ⟨0, 0, 0⟩, 1/10⟩]
            [DishT.node [⟨⟨0, 0, 0⟩, ⟨0, 0, 0⟩, 1/10⟩] []]]) =
      some (DishT.node [⟨⟨0, 0, 0⟩, ⟨1, 0, 0⟩, 1/10⟩, ⟨⟨1, 0, 0⟩, ⟨0, 1, 0⟩, 1/10⟩]
        [DishT.node [⟨⟨1, 0, 0⟩, ⟨0, 1, 0⟩, 1/10⟩]
          [DishT.node [⟨⟨0, 0, 0⟩, ⟨0, 1, 0⟩, 1/10⟩] []]]) ∧
    Matches ⟨⟨0, 0, 0⟩, ⟨0, 0, 0⟩, 1/10⟩ ⟨⟨0, 0, 0⟩, ⟨0, 0, 0⟩, 1/10⟩ ∧
    ¬ Matches ⟨⟨0, 0, 0⟩, ⟨0, 0, 0⟩, 1/10⟩ ⟨⟨1, 0, 0⟩, ⟨0, 0, 0⟩, 1/10⟩ ∧
    ((⟨0, 1, 0⟩ : Vec3) ≠ (⟨1, 0, 0⟩ : Vec3)) := by
  refine ⟨?_, ?_, ?_, ?_⟩
  · norm_num [propagateColorChanges, propagateChildren, recolorBlobs, recolorOne,
      matchIndex, Matches, dist2]
  · norm_num [Matches, dist2]
  · norm_num [Matches, dist2]
  · intro h
    exact absurd (congrArg Vec3.x h) (by norm_num)

/-- C4 (amended): a child in which zero blobs match any `before[j]` is
passed through completely unchanged together with its whole subtree;
a child whose recoloring reports `childChanged = false` is not recursed
into; and when at least one blob matched, the recursion into the child's
own children reuses the original `before` snapshot but takes its
after-colors from the child's own just-updated blob list, not from the
original edited dish's blobs. -/
theorem propagate_pruning_and_depth :
    (∀ (ob dbs cb : List Blob) (cc rest : List DishT),
      (∀ b ∈ cb, ∀ o ∈ ob, ¬ Matches b o) →
      propagateChildren ob dbs (DishT.node cb cc :: rest) =
        (propagateChildren ob dbs rest).map
          (fun rest' => DishT.node cb cc :: rest')) ∧
    (∀ (ob dbs cb nb : List Blob) (cc rest : List DishT),
      recolorBlobs ob dbs cb = some (nb, false) →
      propagateChildren ob dbs (DishT.node cb cc :: rest) =
        (propagateChildren ob dbs rest).map
          (fun rest' => DishT.node nb cc :: rest')) ∧
    (∀ (ob dbs cb nb : List Blob) (cc rest : List DishT),
      recolorBlobs ob dbs cb = some (nb, true) →
      propagateChildren ob dbs (DishT.node cb cc :: rest) =
        (propagateChildren ob nb cc).bind (fun cc' =>
          (propagateChildren ob dbs rest).map
            (fun rest' => DishT.node nb cc' :: rest'))) := by
  refine ⟨?_, ?_, ?_⟩
  · intro ob dbs cb cc rest h
    rw [propagateChildren_cons, recolorBlobs_no_match ob dbs cb h]
    rfl
  · intro ob dbs cb nb cc rest h
    rw [propagateChildren_cons, h]
    rfl
  · intro ob dbs cb nb cc rest h
    rw [propagateChildren_cons, h]
    rfl

/-- Witness for `propagate_pruning_and_depth`: a far-away child is passed
through unchanged; the counterexample child (one blob matching
`before[1]`) recurses with its own updated blob list. -/
theorem propagate_pruning_and_depth_witness :
    ((∀ b ∈ [(⟨⟨5, 5, 0⟩, ⟨1, 1, 1⟩, 1/10⟩ : Blob)],
        ∀ o ∈ [(⟨⟨0, 0, 0⟩, ⟨0, 0, 0⟩, 1/10⟩ : Blob)], ¬ Matches b o) ∧
      propagateChildren [⟨⟨0, 0, 0⟩, ⟨0, 0, 0⟩, 1/10⟩]
          [⟨⟨0, 0, 0⟩, ⟨1, 0, 0⟩, 1/10⟩]
          [DishT.node [⟨⟨5, 5, 0⟩, ⟨1, 1, 1⟩, 1/10⟩] []] =
        (propagateChildren [⟨⟨0, 0, 0⟩, ⟨0, 0, 0⟩, 1/10⟩]
            [⟨⟨0, 0, 0⟩, ⟨1, 0, 0⟩, 1/10⟩] []).map
          (fun rest' => DishT.node [⟨⟨5, 5, 0⟩, ⟨1, 1, 1⟩, 1/10⟩] [] :: rest')) ∧
    (recolorBlobs [(⟨⟨0, 0, 0⟩, ⟨0, 0, 0⟩, 1/10⟩ : Blob)]
          [⟨⟨0, 0, 0⟩, ⟨1, 0, 0⟩, 1/10⟩] [⟨⟨0, 0, 0⟩, ⟨0, 0, 0⟩, 1/10⟩] =
        some ([⟨⟨0, 0, 0⟩, ⟨1, 0, 0⟩, 1/10⟩], true) ∧
      propagateChildren [⟨⟨0, 0, 0⟩, ⟨0, 0, 0⟩, 1/10⟩]
          [⟨⟨0, 0, 0⟩, ⟨1, 0, 0⟩, 1/10⟩]
          [DishT.node [⟨⟨0, 0, 0⟩, ⟨0, 0, 0⟩, 1/10⟩] []] =
        (propagateChildren [⟨⟨0, 0, 0⟩, ⟨0, 0, 0⟩, 1/10⟩]
            [⟨⟨0, 0, 0⟩, ⟨1, 0, 0⟩, 1/10⟩] []).bind (fun cc' =>
          (propagateChildren [⟨⟨0, 0, 0⟩, ⟨0, 0, 0⟩, 1/10⟩]
              [⟨⟨0, 0, 0⟩, ⟨1, 0, 0⟩, 1/10⟩] []).map
            (fun rest' => DishT.node [⟨⟨0, 0, 0⟩, ⟨1, 0, 0⟩, 1/10⟩] cc' :: rest'))) := by
  have hno : ∀ b ∈ [(⟨⟨5, 5, 0⟩, ⟨1, 1, 1⟩, 1/10⟩ : Blob)],
      ∀ o ∈ [(⟨⟨0, 0, 0⟩, ⟨0, 0, 0⟩, 1/10⟩ : Blob)], ¬ Matches b o := by
    intro b hb o ho
    simp only [List.mem_singleton] at hb ho
    subst hb; subst ho
    norm_num [Matches, dist2]
  have hrb : recolorBlobs [(⟨⟨0, 0, 0⟩, ⟨0, 0, 0⟩, 1/10⟩ : Blob)]
      [⟨⟨0, 0, 0⟩, ⟨1, 0, 0⟩, 1/10⟩] [⟨⟨0, 0, 0⟩, ⟨0, 0, 0⟩, 1/10⟩] =
      some ([⟨⟨0, 0, 0⟩, ⟨1, 0, 0⟩, 1/10⟩], true) := by
    norm_num [recolorBlobs, recolorOne, matchIndex, Matches, dist2]
  exact ⟨⟨hno, propagate_pruning_and_depth.1 _ _ _ _ _ hno⟩,
    hrb, propagate_pruning_and_depth.2.2 _ _ _ _ _ _ hrb⟩

/-! ## PaletteHistory state (`PaletteHistory.ts` lines 73-141)

`MixingDish` objects hold `Blob` object references, and the deep-copy
guarantees of `cloneFrom` (lines 21-31) are aliasing statements; so this
model keeps an explicit store of blob references: `blobStore` maps a
reference (a natural number, allocated from `nextBlobRef`) to the blob's
current value, a dish holds a list of references, and in-place mutation
of a blob object rewrites the store at one reference.  Dishes reference
each other by `id` (`parent` / `children` hold dish ids; the source holds
object references, and dish ids are unique — `nextDishId` is a monotonic
counter — so the id resolves to the same dish). -/

/-- A `MixingDish` record: `id`, blob references, `parent`/`children`
dish ids, and the `usedForPainting` flag. -/
structure PHDish where
  id : ℕ
  blobRefs : List ℕ
  parent : Option ℕ
  children : List ℕ
  usedForPainting : Bool
  deriving DecidableEq, Repr

/-- The `PaletteHistory` object state: `dishes` (in creation order),
`activeDish` (by id), the `nextDishId` counter, the `pixelToDishMap`
provenance map (quantized key to dish id), and the blob object store. -/
structure PHState where
  dishes : List PHDish
  activeDish : Option ℕ
  nextDishId : ℕ
  pixelToDishMap : List ((ℤ × ℤ) × ℕ)
  blobStore : List (ℕ × Blob)
  nextBlobRef : ℕ
  deriving DecidableEq, Repr

/-- Dereference one blob object. -/
def lookupBlob (store : List (ℕ × Blob)) (r : ℕ) : Option Blob :=
  (store.find? (fun e => e.1 = r)).map (fun e => e.2)

/-- The blob values of a dish, in order (total with a dummy default; all
theorems are used under well-formedness, where every reference
resolves). -/
def dishBlobValues (s : PHState) (d : PHDish) : List Blob :=
  d.blobRefs.map (fun r => (lookupBlob s.blobStore r).getD ⟨⟨0,0,0⟩, ⟨0,0,0⟩, 0⟩)

/-- In-place mutation of the blob object behind reference `r` (e.g. a
`vec3.copy` into its color): the store is rewritten at `r` only. -/
def mutateBlob (s : PHState) (r : ℕ) (b : Blob) : PHState :=
  { s with blobStore := s.blobStore.map (fun e => if e.1 = r then (r, b) else e) }

/-- `PaletteHistory.getDishById` (lines 105-107): first dish with the id,
or `null`. -/
def getDishById (s : PHState) (i : ℕ) : Option PHDish :=
  s.dishes.find? (fun d => d.id = i)

/-- `PaletteHistory.createNewDish(parent)` (lines 86-97) together with
the `MixingDish` constructor (lines 12-18) and `cloneFrom` (lines 21-31):
a dish with the fresh id is appended (registering itself in the parent's
`children`), becomes active, and, when a parent is given, receives deep
copies of the parent's blobs — freshly allocated references carrying the
parent's current blob values. -/
def createNewDish (s : PHState) (parentId : Option ℕ) : PHState × PHDish :=
  let id := s.nextDishId
  let dishes₁ := match parentId with
    | some p => s.dishes.map (fun d =>
        if d.id = p then { d with children := d.children ++ [id] } else d)
    | none => s.dishes
  let parentVals : List Blob := match parentId with
    | some p =>
      match getDishById s p with
      | some pd => dishBlobValues s pd
      | none => []
    | none => []
  let refs := List.range' s.nextBlobRef parentVals.length
  let newDish : PHDish :=
    { id := id, blobRefs := refs, parent := parentId, children := [],
      usedForPainting := false }
  ({ dishes := dishes₁ ++ [newDish],
     activeDish := some id,
     nextDishId := id + 1,
     pixelToDishMap := s.pixelToDishMap,
     blobStore := s.blobStore ++ refs.zip parentVals,
     nextBlobRef := s.nextBlobRef + parentVals.length }, newDish)

/-- JavaScript `Map.set`: overwrite the entry of an existing key in
place, otherwise append. -/
def mapSet (m : List ((ℤ × ℤ) × ℕ)) (k : ℤ × ℤ) (v : ℕ) : List ((ℤ × ℤ) × ℕ) :=
  if m.any (fun e => e.1 = k) then
    m.map (fun e => if e.1 = k then (k, v) else e)
  else m ++ [(k, v)]

/-- JavaScript `Map.get`: value of the key if present. -/
def mapGet (m : List ((ℤ × ℤ) × ℕ)) (k : ℤ × ℤ) : Option ℕ :=
  (m.find? (fun e => e.1 = k)).map (fun e => e.2)

/-- The composite key `${Math.round(x*1000)},${Math.round(y*1000)}` of
`recordPaintedPixel` / `getDishForPixel`.  The decimal string for a pair
of integers is injective, so the key is modelled as the integer pair;
`Math.round` rounds half toward positive infinity, as does Mathlib's
`round` on `ℚ` (`round q = ⌊q + 1/2⌋`). -/
def quantizeKey (x y : ℚ) : ℤ × ℤ :=
  (round (x * 1000), round (y * 1000))

/-- `PaletteHistory.recordPaintedPixel` (lines 110-116): no-op without an
active dish; otherwise store `key -> activeDish.id` and set the active
dish's `usedForPainting` flag. -/
def recordPaintedPixel (s : PHState) (x y : ℚ) : PHState :=
  match s.activeDish with
  | none => s
  | some aid =>
    { s with
      pixelToDishMap := mapSet s.pixelToDishMap (quantizeKey x y) aid,
      dishes := s.dishes.map (fun d =>
        if d.id = aid then { d with usedForPainting := true } else d) }

/-- `PaletteHistory.getDishForPixel` (lines 119-124): quantize, look the
key up, and resolve the stored dish id (possibly to `null`). -/
def getDishForPixel (s : PHState) (x y : ℚ) : Option PHDish :=
  match mapGet s.pixelToDishMap (quantizeKey x y) with
  | none => none
  | some dishId => getDishById s dishId

/-- `PaletteHistory.checkAndCreateSnapshot` (lines 127-141).  The source
reads fields off the `activeDish` object reference; here the active id is
resolved through `getDishById` (ids are unique), with a dummy result in
the unreachable case of an unresolvable active id. -/
def checkAndCreateSnapshot (s : PHState) : PHState × PHDish :=
  match s.activeDish with
  | none => createNewDish s none
  | some aid =>
    match getDishById s aid with
    | none => (s, ⟨0, [], none, [], false⟩)
    | some a =>
      if a.usedForPainting then createNewDish s (some aid)
      else (s, a)

theorem lookupBlob_append_of_none (store new : List (ℕ × Blob)) (r : ℕ)
    (h : ∀ e ∈ new, e.1 ≠ r) :
    lookupBlob (store ++ new) r = lookupBlob store r := by
  unfold lookupBlob
  rw [List.find?_append]
  have hnew : new.find? (fun e => e.1 = r) = none :=
    List.find?_eq_none.2 (fun a ha => by simpa using h a ha)
  rw [hnew]
  cases store.find? (fun e => e.1 = r) <;> rfl

theorem lookupBlob_append_of_none_left (store new : List (ℕ × Blob)) (r : ℕ)
    (h : ∀ e ∈ store, e.1 ≠ r) :
    lookupBlob (store ++ new) r = lookupBlob new r := by
  unfold lookupBlob
  rw [List.find?_append]
  have hold : store.find? (fun e => e.1 = r) = none :=
    List.find?_eq_none.2 (fun a ha => by simpa using h a ha)
  rw [hold, Option.none_or]

theorem lookupBlob_zip_range' (vals : List Blob) (n i : ℕ) (hi : i < vals.length) :
    lookupBlob ((List.range' n vals.length).zip vals) (n + i) = vals[i]? := by
  induction vals generalizing n i with
  | nil => simp at hi
  | cons v rest ih =>
    have hz : (List.range' n (v :: rest).length).zip (v :: rest) =
        (n, v) :: (List.range' (n + 1) rest.length).zip rest := by
      rw [List.length_cons, List.range'_succ]
      rfl
    rw [hz]
    cases i with
    | zero =>
      unfold lookupBlob
      rw [List.find?_cons_of_pos _ (by simp)]
      simp
    | succ i' =>
      unfold lookupBlob
      rw [List.find?_cons_of_neg _ (by simp)]
      have := ih (n + 1) i' (by simpa using Nat.lt_of_succ_lt_succ hi)
      unfold lookupBlob at this
      rw [show n + (i' + 1) = (n + 1) + i' by omega]
      rw [this]
      simp

theorem lookupBlob_mutate_ne (store : List (ℕ × Blob)) (r r' : ℕ) (b : Blob)
    (h : r' ≠ r) :
    lookupBlob (store.map (fun e => if e.1 = r then (r, b) else e)) r' =
      lookupBlob store r' := by
  unfold lookupBlob
  induction store with
  | nil => rfl
  | cons e rest ih =>
    by_cases he : e.1 = r
    · rw [List.map_cons, if_pos he,
        List.find?_cons_of_neg _ (by simp; omega),
        List.find?_cons_of_neg _ (by simp [he]; omega)]
      exact ih
    · rw [List.map_cons, if_neg he]
      by_cases hp : e.1 = r'
      · rw [List.find?_cons_of_pos _ (by simp [hp]),
          List.find?_cons_of_pos _ (by simp [hp])]
      · rw [List.find?_cons_of_neg _ (by simp [hp]),
          List.find?_cons_of_neg _ (by simp [hp])]
        exact ih

theorem find?_id_update_children (ds : List PHDish) (pid nid : ℕ) (p : PHDish)
    (h : ds.find? (fun d => d.id = pid) = some p) :
    (ds.map (fun d =>
        if d.id = pid then { d with children := d.children ++ [nid] } else d)).find?
      (fun d => d.id = pid) = some { p with children := p.children ++ [nid] } := by
  induction ds with
  | nil => simp at h
  | cons d rest ih =>
    by_cases hd : d.id = pid
    · rw [List.find?_cons_of_pos _ (by simp [hd])] at h
      have hdp : d = p := Option.some_inj.1 h
      subst hdp
      rw [List.map_cons, if_pos hd, List.find?_cons_of_pos _ (by simp [hd])]
    · rw [List.find?_cons_of_neg _ (by simp [hd])] at h
      rw [List.map_cons, if_neg hd, List.find?_cons_of_neg _ (by simp [hd])]
      exact ih h

/-- Reference discipline of the blob store: every blob reference held by
a dish, and every key of the store, is below the allocation counter. -/
def WFRefs (s : PHState) : Prop :=
  (∀ d ∈ s.dishes, ∀ r ∈ d.blobRefs, r < s.nextBlobRef) ∧
  (∀ e ∈ s.blobStore, e.1 < s.nextBlobRef)

/-- `createNewDish s (some pid)` written out, given that `pid` resolves
to the dish `p`. -/
theorem createNewDish_some_eq (s : PHState) (pid : ℕ) (p : PHDish)
    (hp : getDishById s pid = some p) :
    createNewDish s (some pid) =
      ({ dishes := (s.dishes.map (fun d =>
            if d.id = pid then { d with children := d.children ++ [s.nextDishId] } else d)) ++
            [{ id := s.nextDishId,
               blobRefs := List.range' s.nextBlobRef (dishBlobValues s p).length,
               parent := some pid, children := [], usedForPainting := false }],
         activeDish := some s.nextDishId,
         nextDishId := s.nextDishId + 1,
         pixelToDishMap := s.pixelToDishMap,
         blobStore := s.blobStore ++
           (List.range' s.nextBlobRef (dishBlobValues s p).length).zip (dishBlobValues s p),
         nextBlobRef := s.nextBlobRef + (dishBlobValues s p).length },
       { id := s.nextDishId,
         blobRefs := List.range' s.nextBlobRef (dishBlobValues s p).length,
         parent := some pid, children := [], usedForPainting := false }) := by
  simp only [createNewDish, hp]

theorem map_lookup_fresh (store : List (ℕ × Blob)) (vals : List Blob) (n : ℕ)
    (hold : ∀ e ∈ store, e.1 < n) :
    (List.range' n vals.length).map
      (fun r => (lookupBlob (store ++ (List.range' n vals.length).zip vals) r).getD
        ⟨⟨0, 0, 0⟩, ⟨0, 0, 0⟩, 0⟩) = vals := by
  induction vals generalizing store n with
  | nil => simp
  | cons v rest ih =>
    rw [List.length_cons, List.range'_succ, List.zip_cons_cons, List.map_cons]
    congr 1
    · rw [lookupBlob_append_of_none_left store _ n
        (fun e he => by have := hold e he; omega)]
      unfold lookupBlob
      rw [List.find?_cons_of_pos _ (by simp)]
      rfl
    · have hassoc : store ++ (n, v) :: (List.range' (n + 1) rest.length).zip rest =
          (store ++ [(n, v)]) ++ (List.range' (n + 1) rest.length).zip rest := by
        simp
      rw [hassoc]
      refine ih (store ++ [(n, v)]) (n + 1) ?_
      intro e he
      rcases List.mem_append.1 he with he | he
      · have := hold e he; omega
      · simp only [List.mem_singleton] at he
        subst he
        simp

/-- C5: `createNewDish(parent)` allocates the id from the monotonic
counter, appends the new dish to `dishes`, makes it active, registers the
parent/child link, and deep-copies the parent's blobs: the new dish's
blob values equal the parent's at creation time, and mutating any blob
object of either dish never changes the other dish's blob values. -/
theorem createNewDish_deep_copy
    (s : PHState) (pid : ℕ) (p : PHDish) (s' : PHState) (nd : PHDish)
    (hwf : WFRefs s) (hp : getDishById s pid = some p)
    (heq : createNewDish s (some pid) = (s', nd)) :
    nd.id = s.nextDishId ∧
    s'.nextDishId = s.nextDishId + 1 ∧
    nd.parent = some pid ∧
    s'.activeDish = some nd.id ∧
    s'.dishes.length = s.dishes.length + 1 ∧
    s'.dishes.getLast? = some nd ∧
    s'.dishes.map (fun d => d.id) = s.dishes.map (fun d => d.id) ++ [nd.id] ∧
    getDishById s' pid = some { p with children := p.children ++ [nd.id] } ∧
    dishBlobValues s' nd = dishBlobValues s p ∧
    dishBlobValues s' p = dishBlobValues s p ∧
    (∀ r ∈ nd.blobRefs, ∀ b : Blob,
      dishBlobValues (mutateBlob s' r b) p = dishBlobValues s' p) ∧
    (∀ r ∈ p.blobRefs, ∀ b : Blob,
      dishBlobValues (mutateBlob s' r b) nd = dishBlobValues s' nd) := by
  rw [createNewDish_some_eq s pid p hp] at heq
  obtain ⟨rfl, rfl⟩ := Prod.ext_iff.1 heq
  have hpmem : p ∈ s.dishes := List.mem_of_find?_eq_some hp
  have hprefs : ∀ r ∈ p.blobRefs, r < s.nextBlobRef := hwf.1 p hpmem
  have hfresh : ∀ r ∈ List.range' s.nextBlobRef (dishBlobValues s p).length,
      s.nextBlobRef ≤ r := fun r hr => (List.mem_range'_1.1 hr).1
  have hzipkeys : ∀ e ∈ (List.range' s.nextBlobRef (dishBlobValues s p).length).zip
      (dishBlobValues s p), s.nextBlobRef ≤ e.1 := by
    intro e he
    exact hfresh e.1 (List.of_mem_zip he).1
  refine ⟨rfl, rfl, rfl, rfl, by simp, List.getLast?_concat _, ?_, ?_, ?_, ?_, ?_, ?_⟩
  · simp only [List.map_append, List.map_map, List.map_cons, List.map_nil]
    congr 1
    exact List.map_congr_left (fun d _ => by by_cases hd : d.id = pid <;> simp [hd])
  · unfold getDishById
    simp only [List.find?_append]
    rw [find?_id_update_children s.dishes pid s.nextDishId p hp]
    rfl
  · exact map_lookup_fresh s.blobStore (dishBlobValues s p) s.nextBlobRef hwf.2
  · unfold dishBlobValues
    refine List.map_congr_left (fun r hr => ?_)
    rw [lookupBlob_append_of_none _ _ r
      (fun e he => by have h1 := hzipkeys e he; have h2 := hprefs r hr; omega)]
  · intro r hr b
    have hrge : s.nextBlobRef ≤ r := hfresh r hr
    unfold dishBlobValues mutateBlob
    refine List.map_congr_left (fun r' hr' => ?_)
    have : r' ≠ r := by have := hprefs r' hr'; omega
    rw [lookupBlob_mutate_ne _ r r' b this]
  · intro r hr b
    have hrlt : r < s.nextBlobRef := hprefs r hr
    unfold dishBlobValues mutateBlob
    refine List.map_congr_left (fun r' hr' => ?_)
    have : r' ≠ r := by have := hfresh r' hr'; omega
    rw [lookupBlob_mutate_ne _ r r' b this]

/-- Witness for `createNewDish_deep_copy`: branching a child off a dish
holding one red blob. -/
theorem createNewDish_deep_copy_witness :
    WFRefs { dishes := [⟨0, [0], none, [], false⟩], activeDish := some 0,
             nextDishId := 1, pixelToDishMap := [],
             blobStore := [(0, ⟨⟨0, 0, 0⟩, ⟨1, 0, 0⟩, 1/10⟩)], nextBlobRef := 1 } ∧
    getDishById { dishes := [⟨0, [0], none, [], false⟩], activeDish := some 0,
                  nextDishId := 1, pixelToDishMap := [],
                  blobStore := [(0, ⟨⟨0, 0, 0⟩, ⟨1, 0, 0⟩, 1/10⟩)], nextBlobRef := 1 } 0 =
      some ⟨0, [0], none, [], false⟩ ∧
    createNewDish { dishes := [⟨0, [0], none, [], false⟩], activeDish := some 0,
                    nextDishId := 1, pixelToDishMap := [],
                    blobStore := [(0, ⟨⟨0, 0, 0⟩, ⟨1, 0, 0⟩, 1/10⟩)], nextBlobRef := 1 }
        (some 0) =
      ({ dishes := [⟨0, [0], none, [1], false⟩, ⟨1, [1], some 0, [], false⟩],
         activeDish := some 1, nextDishId := 2, pixelToDishMap := [],
         blobStore := [(0, ⟨⟨0, 0, 0⟩, ⟨1, 0, 0⟩, 1/10⟩),
                       (1, ⟨⟨0, 0, 0⟩, ⟨1, 0, 0⟩, 1/10⟩)],
         nextBlobRef := 2 },
       ⟨1, [1], some 0, [], false⟩) ∧
    ((⟨1, [1], some 0, [], false⟩ : PHDish).id = 1 ∧
     dishBlobValues { dishes := [⟨0, [0], none, [1], false⟩, ⟨1, [1], some 0, [], false⟩],
                      activeDish := some 1, nextDishId := 2, pixelToDishMap := [],
                      blobStore := [(0, ⟨⟨0, 0, 0⟩, ⟨1, 0, 0⟩, 1/10⟩),
                                    (1, ⟨⟨0, 0, 0⟩, ⟨1, 0, 0⟩, 1/10⟩)],
                      nextBlobRef := 2 }
        (⟨1, [1], some 0, [], false⟩ : PHDish) =
      dishBlobValues { dishes := [⟨0, [0], none, [], false⟩], activeDish := some 0,
                       nextDishId := 1, pixelToDishMap := [],
                       blobStore := [(0, ⟨⟨0, 0, 0⟩, ⟨1, 0, 0⟩, 1/10⟩)], nextBlobRef := 1 }
        (⟨0, [0], none, [], false⟩ : PHDish)) := by
  have hwf : WFRefs { dishes := [⟨0, [0], none, [], false⟩], activeDish := some 0,
                      nextDishId := 1, pixelToDishMap := [],
                      blobStore := [(0, ⟨⟨0, 0, 0⟩, ⟨1, 0, 0⟩, 1/10⟩)],
                      nextBlobRef := 1 } := by
    refine ⟨?_, ?_⟩
    · intro d hd r hr
      simp only [List.mem_singleton] at hd
      subst hd
      simp only [List.mem_singleton] at hr
      subst hr
      decide
    · intro e he
      simp only [List.mem_singleton] at he
      subst he
      decide
  have h := createNewDish_deep_copy _ 0 _ _ _ hwf rfl rfl
  exact ⟨hwf, rfl, rfl, h.1, h.2.2.2.2.2.2.2.2.1⟩

/-- `PaletteHistory.setActiveDish` (lines 100-102): a pure pointer
update. -/
def setActiveDish (s : PHState) (i : ℕ) : PHState :=
  { s with activeDish := some i }

theorem mapGet_mapSet_self (m : List ((ℤ × ℤ) × ℕ)) (k : ℤ × ℤ) (v : ℕ) :
    mapGet (mapSet m k v) k = some v := by
  induction m with
  | nil =>
    unfold mapSet mapGet
    rw [if_neg (by simp)]
    simp
  | cons e rest ih =>
    by_cases he : e.1 = k
    · unfold mapSet mapGet
      rw [if_pos (by simp [List.any_cons, he])]
      rw [List.map_cons, if_pos he, List.find?_cons_of_pos _ (by simp)]
      rfl
    · unfold mapSet at ih ⊢
      by_cases hany : rest.any (fun e => e.1 = k)
      · rw [if_pos (by simp [List.any_cons, hany])]
        rw [if_pos hany] at ih
        unfold mapGet at ih ⊢
        rw [List.map_cons, if_neg he, List.find?_cons_of_neg _ (by simp [he])]
        exact ih
      · rw [if_neg (by simp [List.any_cons, he, hany])]
        rw [if_neg hany] at ih
        unfold mapGet at ih ⊢
        rw [List.cons_append, List.find?_cons_of_neg _ (by simp [he])]
        exact ih

theorem find?_key_overwrite (m : List ((ℤ × ℤ) × ℕ)) (k k' : ℤ × ℤ) (v : ℕ)
    (h : k' ≠ k) :
    (m.map (fun e => if e.1 = k then (k, v) else e)).find? (fun e => e.1 = k') =
      m.find? (fun e => e.1 = k') := by
  induction m with
  | nil => rfl
  | cons e rest ih =>
    by_cases he : e.1 = k
    · rw [List.map_cons, if_pos he,
        List.find?_cons_of_neg _ (by simp; exact fun hh => h hh.symm),
        List.find?_cons_of_neg _ (by simp [he]; exact fun hh => h hh.symm)]
      exact ih
    · rw [List.map_cons, if_neg he]
      by_cases hp : e.1 = k'
      · rw [List.find?_cons_of_pos _ (by simp [hp]),
          List.find?_cons_of_pos _ (by simp [hp])]
      · rw [List.find?_cons_of_neg _ (by simp [hp]),
          List.find?_cons_of_neg _ (by simp [hp])]
        exact ih

theorem mapGet_mapSet_ne (m : List ((ℤ × ℤ) × ℕ)) (k k' : ℤ × ℤ) (v : ℕ)
    (h : k' ≠ k) :
    mapGet (mapSet m k v) k' = mapGet m k' := by
  unfold mapSet
  by_cases hany : m.any (fun e => e.1 = k)
  · rw [if_pos hany]
    unfold mapGet
    rw [find?_key_overwrite m k k' v h]
  · rw [if_neg hany]
    unfold mapGet
    rw [List.find?_append]
    have hnone : List.find? (fun e => decide (e.1 = k')) [(k, v)] = none := by
      rw [List.find?_eq_none]
      intro a ha
      simp only [List.mem_singleton] at ha
      subst ha
      simp
      exact fun hh => h hh.symm
    rw [hnone]
    simp

theorem countP_mapSet_le_one (m : List ((ℤ × ℤ) × ℕ)) (k : ℤ × ℤ) (v : ℕ)
    (h : ∀ k', m.countP (fun e => e.1 = k') ≤ 1) :
    ∀ k', (mapSet m k v).countP (fun e => e.1 = k') ≤ 1 := by
  intro k'
  unfold mapSet
  by_cases hany : m.any (fun e => e.1 = k)
  · rw [if_pos hany]
    rw [List.countP_map]
    calc m.countP ((fun e => decide (e.1 = k')) ∘ fun e => if e.1 = k then (k, v) else e)
        = m.countP (fun e => e.1 = k') := by
          refine List.countP_congr (fun e _ => ?_)
          by_cases he : e.1 = k <;> simp [he]
      _ ≤ 1 := h k'
  · rw [if_neg hany]
    rw [List.countP_append]
    by_cases hk : k = k'
    · subst hk
      have h0 : m.countP (fun e => e.1 = k) = 0 := by
        rw [List.countP_eq_zero]
        intro e he
        simp only [List.any_eq_true] at hany
        simpa using fun hh => hany ⟨e, he, by simpa using hh⟩
      rw [h0]
      simp
    · have h1 : List.countP (fun e => decide (e.1 = k')) [(k, v)] = 0 := by
        rw [List.countP_eq_zero]
        intro e he
        simp at he
        subst he
        simpa using hk
      rw [h1]
      simpa using h k'

theorem find?_id_map_update (ds : List PHDish) (i : ℕ) (d : PHDish)
    (f : PHDish → PHDish) (hf : ∀ x, (f x).id = x.id)
    (h : ds.find? (fun x => x.id = i) = some d) :
    (ds.map (fun x => if x.id = i then f x else x)).find? (fun x => x.id = i) =
      some (f d) := by
  induction ds with
  | nil => simp at h
  | cons e rest ih =>
    by_cases he : e.id = i
    · rw [List.find?_cons_of_pos _ (by simp [he])] at h
      have hde : e = d := Option.some_inj.1 h
      subst hde
      rw [List.map_cons, if_pos he,
        List.find?_cons_of_pos _ (by simp [hf e, he])]
    · rw [List.find?_cons_of_neg _ (by simp [he])] at h
      rw [List.map_cons, if_neg he, List.find?_cons_of_neg _ (by simp [he])]
      exact ih h

/-- C6: after `recordPaintedPixel(x, y)` with dish `aid` active (and
resolving to `d` among unique dish ids), a lookup at any position with
the same quantized key returns that dish (now flagged as used); a lookup
at a key that was never recorded returns none; recording again at the
same quantized position with another active dish overwrites the entry
(last write wins), and the map keeps at most one entry per quantized
position. -/
theorem provenance_roundtrip
    (s : PHState) (x y : ℚ) (aid : ℕ) (d : PHDish)
    (hactive : s.activeDish = some aid)
    (hd : getDishById s aid = some d) :
    (∀ x' y' : ℚ, quantizeKey x' y' = quantizeKey x y →
      getDishForPixel (recordPaintedPixel s x y) x' y' =
        some { d with usedForPainting := true }) ∧
    (∀ x₂ y₂ : ℚ, mapGet s.pixelToDishMap (quantizeKey x₂ y₂) = none →
      quantizeKey x₂ y₂ ≠ quantizeKey x y →
      getDishForPixel (recordPaintedPixel s x y) x₂ y₂ = none) ∧
    (∀ (aid₂ : ℕ) (x₂ y₂ : ℚ), quantizeKey x₂ y₂ = quantizeKey x y →
      mapGet (recordPaintedPixel (setActiveDish (recordPaintedPixel s x y) aid₂)
          x₂ y₂).pixelToDishMap (quantizeKey x y) = some aid₂) ∧
    ((∀ k, s.pixelToDishMap.countP (fun e => e.1 = k) ≤ 1) →
      ∀ k, (recordPaintedPixel s x y).pixelToDishMap.countP
        (fun e => e.1 = k) ≤ 1) := by
  have hrec : recordPaintedPixel s x y =
      { s with
        pixelToDishMap := mapSet s.pixelToDishMap (quantizeKey x y) aid,
        dishes := s.dishes.map (fun d =>
          if d.id = aid then { d with usedForPainting := true } else d) } := by
    unfold recordPaintedPixel
    rw [hactive]
  refine ⟨?_, ?_, ?_, ?_⟩
  · intro x' y' hq
    unfold getDishForPixel
    rw [hrec, hq]
    simp only
    rw [mapGet_mapSet_self]
    unfold getDishById
    simp only
    exact find?_id_map_update s.dishes aid d _ (fun _ => rfl) hd
  · intro x₂ y₂ hmiss hne
    unfold getDishForPixel
    rw [hrec]
    simp only
    rw [mapGet_mapSet_ne _ _ _ _ hne, hmiss]
  · intro aid₂ x₂ y₂ hq
    rw [hrec]
    unfold setActiveDish recordPaintedPixel
    simp only
    rw [hq]
    exact mapGet_mapSet_self _ _ _
  · intro hone k
    rw [hrec]
    exact countP_mapSet_le_one s.pixelToDishMap (quantizeKey x y) aid hone k

/-- Witness for `provenance_roundtrip`: recording the origin pixel on the
single-dish state and looking it up. -/
theorem provenance_roundtrip_witness :
    ({ dishes := [⟨0, [], none, [], false⟩], activeDish := some 0, nextDishId := 1,
       pixelToDishMap := [], blobStore := [], nextBlobRef := 0 } : PHState).activeDish =
      some 0 ∧
    getDishById { dishes := [⟨0, [], none, [], false⟩], activeDish := some 0,
                  nextDishId := 1, pixelToDishMap := [], blobStore := [],
                  nextBlobRef := 0 } 0 = some ⟨0, [], none, [], false⟩ ∧
    getDishForPixel
        (recordPaintedPixel { dishes := [⟨0, [], none, [], false⟩],
                              activeDish := some 0, nextDishId := 1,
                              pixelToDishMap := [], blobStore := [],
                              nextBlobRef := 0 } 0 0) 0 0 =
      some ⟨0, [], none, [], true⟩ := by
  have h := provenance_roundtrip
    { dishes := [⟨0, [], none, [], false⟩], activeDish := some 0, nextDishId := 1,
      pixelToDishMap := [], blobStore := [], nextBlobRef := 0 }
    0 0 0 ⟨0, [], none, [], false⟩ rfl rfl
  exact ⟨rfl, rfl, h.1 0 0 rfl⟩

/-- C10: a provenance entry whose stored dish id is absent from the
current `dishes` list makes `getDishForPixel` return none, and more
generally every dish returned by `getDishForPixel` is a member of the
current forest. -/
theorem getDishForPixel_stale :
    (∀ (s : PHState) (x y : ℚ) (i : ℕ),
      mapGet s.pixelToDishMap (quantizeKey x y) = some i →
      (∀ d ∈ s.dishes, d.id ≠ i) →
      getDishForPixel s x y = none) ∧
    (∀ (s : PHState) (x y : ℚ) (d : PHDish),
      getDishForPixel s x y = some d → d ∈ s.dishes) := by
  constructor
  · intro s x y i hk hmiss
    unfold getDishForPixel
    rw [hk]
    unfold getDishById
    simp only
    exact List.find?_eq_none.2 (fun d hd => by simpa using hmiss d hd)
  · intro s x y d h
    unfold getDishForPixel at h
    cases hk : mapGet s.pixelToDishMap (quantizeKey x y) with
    | none => rw [hk] at h; exact absurd h (by simp)
    | some i =>
      rw [hk] at h
      exact List.mem_of_find?_eq_some h

/-- Witness for `getDishForPixel_stale`: a stale entry pointing at dish
id `7` in a forest holding only dish `0`. -/
theorem getDishForPixel_stale_witness :
    mapGet ([(((0 : ℤ), (0 : ℤ)), 7)]) (quantizeKey 0 0) = some 7 ∧
    (∀ d ∈ [(⟨0, [], none, [], false⟩ : PHDish)], d.id ≠ 7) ∧
    getDishForPixel { dishes := [⟨0, [], none, [], false⟩], activeDish := some 0,
                      nextDishId := 1, pixelToDishMap := [(((0 : ℤ), (0 : ℤ)), 7)],
                      blobStore := [], nextBlobRef := 0 } 0 0 = none := by
  have h1 : mapGet ([(((0 : ℤ), (0 : ℤ)), 7)]) (quantizeKey 0 0) = some 7 := by
    unfold mapGet quantizeKey
    norm_num
  have h2 : ∀ d ∈ [(⟨0, [], none, [], false⟩ : PHDish)], d.id ≠ 7 := by
    intro d hd
    simp only [List.mem_singleton] at hd
    subst hd
    decide
  exact ⟨h1, h2, getDishForPixel_stale.1 _ 0 0 7 h1 h2⟩

theorem checkAndCreateSnapshot_eq (s : PHState) (aid : ℕ) (a : PHDish)
    (hactive : s.activeDish = some aid) (ha : getDishById s aid = some a) :
    checkAndCreateSnapshot s =
      if a.usedForPainting then createNewDish s (some aid) else (s, a) := by
  simp only [checkAndCreateSnapshot, hactive, ha]

/-- C7: `checkAndCreateSnapshot` returns the active dish itself with the
state unchanged when its `usedForPainting` flag is false; when the flag
is true it creates and returns a new child of the active dish whose blob
values are copies of the active dish's, while the painted dish keeps its
own blob references and values. -/
theorem checkAndCreateSnapshot_spec
    (s : PHState) (aid : ℕ) (a : PHDish)
    (hwf : WFRefs s)
    (hactive : s.activeDish = some aid)
    (ha : getDishById s aid = some a) :
    (a.usedForPainting = false → checkAndCreateSnapshot s = (s, a)) ∧
    (a.usedForPainting = true →
      ∃ (s' : PHState) (nd : PHDish), checkAndCreateSnapshot s = (s', nd) ∧
        nd.parent = some aid ∧ nd.id = s.nextDishId ∧
        dishBlobValues s' nd = dishBlobValues s a ∧
        (∃ a', getDishById s' aid = some a' ∧ a'.blobRefs = a.blobRefs ∧
          dishBlobValues s' a' = dishBlobValues s a)) := by
  constructor
  · intro hflag
    rw [checkAndCreateSnapshot_eq s aid a hactive ha, hflag]
    rfl
  · intro hflag
    rw [checkAndCreateSnapshot_eq s aid a hactive ha, hflag]
    simp only [if_true]
    have heq := createNewDish_some_eq s aid a ha
    have h := createNewDish_deep_copy s aid a _ _ hwf ha heq
    refine ⟨_, _, heq, h.2.2.1, h.1, h.2.2.2.2.2.2.2.2.1, ?_⟩
    refine ⟨_, h.2.2.2.2.2.2.2.1, rfl, ?_⟩
    exact h.2.2.2.2.2.2.2.2.2.1

/-- Witness for `checkAndCreateSnapshot_spec`: on a painted one-blob
dish, the snapshot branches into a fresh child dish. -/
theorem checkAndCreateSnapshot_spec_witness :
    WFRefs { dishes := [⟨0, [0], none, [], true⟩], activeDish := some 0,
             nextDishId := 1, pixelToDishMap := [],
             blobStore := [(0, ⟨⟨0, 0, 0⟩, ⟨1, 0, 0⟩, 1/10⟩)], nextBlobRef := 1 } ∧
    (⟨0, [0], none, [], true⟩ : PHDish).usedForPainting = true ∧
    (∃ (s' : PHState) (nd : PHDish),
      checkAndCreateSnapshot { dishes := [⟨0, [0], none, [], true⟩],
                               activeDish := some 0, nextDishId := 1,
                               pixelToDishMap := [],
                               blobStore := [(0, ⟨⟨0, 0, 0⟩, ⟨1, 0, 0⟩, 1/10⟩)],
                               nextBlobRef := 1 } =
        (s', nd) ∧
      nd.parent = some 0 ∧ nd.id = 1 ∧
      dishBlobValues s' nd =
        dishBlobValues { dishes := [⟨0, [0], none, [], true⟩], activeDish := some 0,
                         nextDishId := 1, pixelToDishMap := [],
                         blobStore := [(0, ⟨⟨0, 0, 0⟩, ⟨1, 0, 0⟩, 1/10⟩)],
                         nextBlobRef := 1 }
          (⟨0, [0], none, [], true⟩ : PHDish)) := by
  have hwf : WFRefs { dishes := [⟨0, [0], none, [], true⟩], activeDish := some 0,
                      nextDishId := 1, pixelToDishMap := [],
                      blobStore := [(0, ⟨⟨0, 0, 0⟩, ⟨1, 0, 0⟩, 1/10⟩)],
                      nextBlobRef := 1 } := by
    refine ⟨?_, ?_⟩
    · intro d hd r hr
      simp only [List.mem_singleton] at hd
      subst hd
      simp only [List.mem_singleton] at hr
      subst hr
      decide
    · intro e he
      simp only [List.mem_singleton] at he
      subst he
      decide
  have h := checkAndCreateSnapshot_spec _ 0 ⟨0, [0], none, [], true⟩ hwf rfl rfl
  obtain ⟨s', nd, heq, hpar, hid, hvals, _⟩ := h.2 rfl
  exact ⟨hwf, rfl, s', nd, heq, hpar, hid, hvals⟩

/-! ## Session undo/redo (`src/main.ts` lines 81-89, 658-773)

The session keeps the live state (the `PaletteHistory` dish forest, the
active dish, and the working blob list `blobs` of `main.ts`) plus the
`undoStack` / `redoStack` of `AppState` snapshots.  Every transfer into
or out of a snapshot deep-copies the blob values (`saveState`,
`restoreState` rebuild each blob from its `center` / `color` / `radius`),
so snapshots are modelled at the value level: a dish holds its blob
values directly, and dishes refer to each other by id as in the arena
model (unique ids; `saveState` itself re-links parents and children by
matching ids).  JavaScript array `push`/`pop` act on the end of the
array; the stacks are modelled with the newest snapshot first, so `push`
is `::` and `pop` takes the head. -/

/-- A `MixingDish` at value level, for snapshotting: id, blob values,
parent / children dish ids, `usedForPainting`. -/
structure VDish where
  id : ℕ
  blobs : List Blob
  parent : Option ℕ
  children : List ℕ
  usedForPainting : Bool
  deriving DecidableEq, Repr

/-- The live mutable state of `main.ts`: `paletteHistory.dishes`, the
active dish (`activeMixingDish`, by id, `none` for `null`), and the
working blob list `blobs`. -/
structure LiveState where
  dishes : List VDish
  activeId : Option ℕ
  blobs : List Blob
  deriving DecidableEq, Repr

/-- The `AppState` snapshot record of `main.ts` (lines 85-89):
`activeId` is the dish id or `-1` when no dish is active. -/
structure AppState where
  dishes : List VDish
  activeId : ℤ
  currentBlobs : List Blob
  deriving DecidableEq, Repr

/-- The whole session: live state plus the two snapshot stacks (newest
first). -/
structure SessionState where
  live : LiveState
  undoStack : List AppState
  redoStack : List AppState
  deriving DecidableEq, Repr

/-- Replace the element at index `i`. -/
def updateAt {α : Type} (l : List α) (i : ℕ) (f : α → α) : List α :=
  match l, i with
  | [], _ => []
  | a :: rest, 0 => f a :: rest
  | a :: rest, i + 1 => a :: updateAt rest i f

/-- The parent/child re-linking step of `saveState` (lines 683-691) for
the dish at index `i`: if the original dish has a parent, find the
parent's index by id in the original list and, when found, set the
copy's parent and push the copy's id onto the parent copy's children. -/
def relinkStep (orig : List VDish) (acc : List VDish) (i : ℕ) : List VDish :=
  match orig[i]? with
  | none => acc
  | some d =>
    match d.parent with
    | none => acc
    | some pid =>
      match orig.findIdx? (fun d₂ => d₂.id = pid) with
      | none => acc
      | some j => updateAt (updateAt acc i (fun c => { c with parent := some pid }))
          j (fun c => { c with children := c.children ++ [d.id] })

/-- The dish deep copy of `saveState` (lines 667-691): copy every dish
with its blob values and `usedForPainting` but `parent := null` and
`children := []`, then rebuild the links id-by-id. -/
def snapshotDishes (ds : List VDish) : List VDish :=
  let base := ds.map (fun d => { d with parent := none, children := [] })
  (List.range ds.length).foldl (relinkStep ds) base

/-- The snapshot record built by `saveState` (lines 658-704). -/
def mkSnapshot (l : LiveState) : AppState :=
  { dishes := snapshotDishes l.dishes,
    activeId := match l.activeId with
      | some i => (i : ℤ)
      | none => -1,
    currentBlobs := l.blobs }

/-- `saveState` (lines 658-707): push the deep snapshot onto the undo
stack and clear the redo stack unconditionally. -/
def saveState (s : SessionState) : SessionState :=
  { s with undoStack := mkSnapshot s.live :: s.undoStack, redoStack := [] }

/-- `restoreState` (lines 709-733): install the snapshot's forest, pick
the active dish by id — falling back to the first dish, or to none on an
empty forest — and deep-copy the snapshot's working blobs back. -/
def restoreState (st : AppState) : LiveState :=
  { dishes := st.dishes,
    activeId := match st.dishes.find? (fun d => (d.id : ℤ) = st.activeId) with
      | some d => some d.id
      | none => (st.dishes.head?.map (fun d => d.id)),
    blobs := st.currentBlobs }

/-- `undo` (lines 735-752): no-op with one or fewer saved states;
otherwise pop the top onto the redo stack and restore the new top. -/
def undo (s : SessionState) : SessionState :=
  match s.undoStack with
  | current :: prev :: rest =>
    { live := restoreState prev,
      undoStack := prev :: rest,
      redoStack := current :: s.redoStack }
  | _ => s

/-- `redo` (lines 754-769): no-op on an empty redo stack; otherwise pop
the next state, push it onto the undo stack, and restore it. -/
def redo (s : SessionState) : SessionState :=
  match s.redoStack with
  | next :: rest =>
    { live := restoreState next,
      undoStack := next :: s.undoStack,
      redoStack := rest }
  | [] => s

/-- A state-mutating user action: it calls `saveState()` exactly once
before its mutation `m` of the live state takes effect (the mutation
never touches the stacks). -/
def action (m : LiveState → LiveState) (s : SessionState) : SessionState :=
  let s' := saveState s
  { s' with live := m s'.live }

/-- The session right after startup: `new PaletteHistory()` creates dish
`0` (empty, parentless) and makes it active, the working blob list is
empty, and `initUndoStack` (line 771) pushes the initial snapshot. -/
def initialState : SessionState :=
  saveState { live := { dishes := [⟨0, [], none, [], false⟩],
                        activeId := some 0, blobs := [] },
              undoStack := [], redoStack := [] }

/-- C2: from the initialized session, two mutating actions (each calling
`saveState` exactly once before its mutation) followed by two `undo`s
restore the initial live state exactly (deep-equal dish forest, active
dish and working blob set); `undo` at the initial state is a no-op; and
after any action — in particular a new action following an `undo` —
`redo` is a no-op because `saveState` cleared the redo stack. -/
theorem undo_twice_restores_initial :
    (∀ m₁ m₂ : LiveState → LiveState,
      (undo (undo (action m₂ (action m₁ initialState)))).live =
        initialState.live) ∧
    undo initialState = initialState ∧
    (∀ (s : SessionState) (m : LiveState → LiveState),
      redo (action m s) = action m s) := by
  exact ⟨fun m₁ m₂ => rfl, rfl, fun s m => rfl⟩

/-- The session states reachable from startup through user actions,
`undo` and `redo`. -/
inductive ReachableSession : SessionState → Prop where
  | init : ReachableSession initialState
  | step_action (s : SessionState) (m : LiveState → LiveState) :
      ReachableSession s → ReachableSession (action m s)
  | step_undo (s : SessionState) :
      ReachableSession s → ReachableSession (undo s)
  | step_redo (s : SessionState) :
      ReachableSession s → ReachableSession (redo s)

/-- C3: on every reachable session state the undo stack holds at least
one snapshot; `undo` is a no-op whenever the undo stack has one or fewer
entries (so the stack is never emptied); and `saveState` always clears
the redo stack while pushing its new snapshot. -/
theorem session_stack_invariants :
    (∀ s : SessionState, ReachableSession s → 1 ≤ s.undoStack.length) ∧
    (∀ s : SessionState, s.undoStack.length ≤ 1 → undo s = s) ∧
    (∀ s : SessionState, (saveState s).redoStack = [] ∧
      (saveState s).undoStack = mkSnapshot s.live :: s.undoStack) := by
  refine ⟨?_, ?_, fun s => ⟨rfl, rfl⟩⟩
  · intro s h
    induction h with
    | init => simp [initialState, saveState]
    | step_action s' m h ih => simp [action, saveState]
    | step_undo s' h ih =>
      rcases hu : s'.undoStack with _ | ⟨c, _ | ⟨p, rest⟩⟩
      · simp only [undo, hu]
        rw [hu] at ih
        simp at ih
      · simp only [undo, hu]
        rw [hu] at ih
        exact ih
      · simp [undo, hu]
    | step_redo s' h ih =>
      rcases hr : s'.redoStack with _ | ⟨n, rest⟩
      · simp only [redo, hr]
        exact ih
      · simp [redo, hr]
  · intro s h
    rcases hu : s.undoStack with _ | ⟨c, _ | ⟨p, rest⟩⟩
    · simp [undo, hu]
    · simp [undo, hu]
    · rw [hu] at h
      simp at h

/-- Witness for `session_stack_invariants`: the invariants checked at
the initial session state. -/
theorem session_stack_invariants_witness :
    ReachableSession initialState ∧
    1 ≤ initialState.undoStack.length ∧
    initialState.undoStack.length ≤ 1 ∧
    undo initialState = initialState ∧
    (saveState initialState).redoStack = [] := by
  refine ⟨ReachableSession.init,
    session_stack_invariants.1 initialState ReachableSession.init,
    by decide,
    session_stack_invariants.2.1 initialState (by decide),
    (session_stack_invariants.2.2 initialState).1⟩
